import Mathlib

/-!
Shallow embedding of the cc-plan-review server core (review state engine,
versioned document store, diff algorithm, HTTP handlers) and proofs about
the spec's claims.  Definitions are translated from the repository source
(`dist/review-manager.js`, `src/review-manager.ts` HTTP handlers,
`src/event-bus.ts`).  The SHA-256 content digest supplied by the crypto
library is modelled as an explicit function parameter `hash` threaded
through every operation that calls `calculateContentHash`.
-/

namespace PlanReview

/-- Review lifecycle status. `open` in the source; `open_` because `open` is a
Lean keyword. -/
inductive ReviewStatus where
  | open_
  | changes_requested
  | discussing
  | updated
  | approved
deriving DecidableEq, Repr

/-- Version author, `'human' | 'agent'` in the source. -/
inductive Author where
  | human
  | agent
deriving DecidableEq, Repr

/-- `positionStatus` of a comment. -/
inductive PositionStatus where
  | valid
  | adjusted
  | stale
deriving DecidableEq, Repr

/-- Question type of a `CommentQuestion`. -/
inductive QuestionType where
  | clarification
  | choice
  | multiChoice
  | accepted
deriving DecidableEq, Repr

/-- `TextPosition` from `review-manager`. -/
structure TextPosition where
  startOffset : Nat
  endOffset : Nat
  startLine : Option Nat := none
  endLine : Option Nat := none
deriving DecidableEq, Repr

/-- `CommentQuestion` attached to a comment by `askQuestions`. `options` is
optional in the wire schema. -/
structure CommentQuestion where
  type : QuestionType
  message : String
  options : Option (List String) := none
deriving DecidableEq, Repr

/-- A review comment. Optional fields model JS `undefined`. -/
structure Comment where
  id : String
  createdAt : Nat
  quote : String
  comment : String
  position : TextPosition
  documentVersion : String
  positionStatus : PositionStatus := .valid
  resolved : Bool := false
  resolvedAt : Option Nat := none
  resolvedInVersion : Option String := none
  resolution : Option String := none
  question : Option CommentQuestion := none
  answer : Option String := none
deriving DecidableEq, Repr

/-- An immutable document version snapshot. -/
structure DocumentVersion where
  versionHash : String
  content : String
  createdAt : Nat
  changeDescription : Option String := none
  author : Option Author := none
  previousVersion : Option String := none
deriving DecidableEq, Repr

/-- The review aggregate root. -/
structure Review where
  id : String
  createdAt : Nat
  status : ReviewStatus
  planContent : String
  comments : List Comment
  documentVersions : List DocumentVersion
  currentVersion : String
  projectPath : Option String := none
  approvedDirectly : Bool := false
  approvalNote : Option String := none
deriving DecidableEq, Repr

/-- Input element of the `questions` array of `askQuestions`. -/
structure QuestionInput where
  commentId : String
  type : QuestionType
  message : String
  options : Option (List String) := none
deriving DecidableEq, Repr

/-- One entry of the `resolvedComments` option of `updatePlanContent`. -/
structure ResolvedCommentInput where
  commentId : String
  resolution : String
deriving DecidableEq, Repr

/-- The `options` record accepted by `updatePlanContent`. -/
structure UpdatePlanOptions where
  changeDescription : Option String := none
  author : Option Author := none
  resolvedComments : Option (List ResolvedCommentInput) := none
  autoResolveAll : Bool := false
deriving DecidableEq, Repr

instance {ε α : Type} [DecidableEq ε] [DecidableEq α] : DecidableEq (Except ε α) :=
  fun x y =>
    match x, y with
    | .ok a, .ok b =>
      if h : a = b then isTrue (by rw [h]) else isFalse (by intro hc; cases hc; exact h rfl)
    | .error a, .error b =>
      if h : a = b then isTrue (by rw [h]) else isFalse (by intro hc; cases hc; exact h rfl)
    | .ok _, .error _ => isFalse (by intro hc; cases hc)
    | .error _, .ok _ => isFalse (by intro hc; cases hc)

/-- Default resolution message used when the agent auto-resolves comments. -/
def defaultResolution : String := "已在修订版本中处理"

/-- `createReview` from `dist/review-manager.js`: fresh review in status `open`
with a single initial version whose hash is the digest of the plan. -/
def createReview (hash : String → String) (id : String) (now : Nat)
    (plan : String) (projectPath : Option String) : Review :=
  { id := id
    createdAt := now
    status := .open_
    planContent := plan
    comments := []
    documentVersions := [{ versionHash := hash plan, content := plan, createdAt := now }]
    currentVersion := hash plan
    projectPath := projectPath }

/-- `submitFeedback`: allowed from `open`, `updated` or `discussing`; sets
`changes_requested`. -/
def submitFeedback (r : Review) : Except String Review :=
  if r.status ≠ .open_ ∧ r.status ≠ .updated ∧ r.status ≠ .discussing then
    .error "Cannot submit feedback from this status"
  else
    .ok { r with status := .changes_requested }

/-- `approveReview` (manager level): allowed from `open` or `updated`; sets
`approved`. -/
def approveReview (r : Review) : Except String Review :=
  if r.status ≠ .open_ ∧ r.status ≠ .updated then
    .error "Cannot approve from this status"
  else
    .ok { r with status := .approved }

/-- Apply one question to the first comment whose id matches (the JS code
mutates the object returned by `Array.find`). An `accepted` question also
resolves the comment with the question message as resolution. -/
def applyQuestion (now : Nat) (q : QuestionInput) : List Comment → List Comment
  | [] => []
  | c :: cs =>
    if c.id = q.commentId then
      let c := { c with question := some { type := q.type, message := q.message, options := q.options } }
      (if q.type = .accepted then
        { c with resolved := true, resolvedAt := some now, resolution := some q.message }
       else c) :: cs
    else
      c :: applyQuestion now q cs

/-- `askQuestions`: requires status `changes_requested` and a question entry
for every unresolved comment; stores the questions and sets `discussing`. -/
def askQuestions (now : Nat) (r : Review) (qs : List QuestionInput) :
    Except String Review :=
  if r.status ≠ .changes_requested then
    .error "Cannot ask questions from this status"
  else if ¬ (((r.comments.filter (fun c => !c.resolved)).map (·.id)).filter
      (fun i => !(qs.map (·.commentId)).contains i)).isEmpty then
    .error "Must provide questions for all unresolved comments"
  else
    .ok { r with
      comments := qs.foldl (fun cs q => applyQuestion now q cs) r.comments
      status := .discussing }

/-- Store `answer` on the first comment whose id matches. -/
def applyAnswer (commentId answer : String) : List Comment → List Comment
  | [] => []
  | c :: cs =>
    if c.id = commentId then
      { c with answer := some answer } :: cs
    else
      c :: applyAnswer commentId answer cs

/-- `answerQuestion`: finds the comment; returns `none` leaving the review
untouched when the comment is missing or has no question; otherwise stores the
answer and returns the updated comment. -/
def answerQuestion (r : Review) (commentId answer : String) :
    Option Comment × Review :=
  match r.comments.find? (fun c => c.id = commentId) with
  | none => (none, r)
  | some c =>
    match c.question with
    | none => (none, r)
    | some _ =>
      (some { c with answer := some answer },
       { r with comments := applyAnswer commentId answer r.comments })

/-- Set the resolution bookkeeping fields of one comment. -/
def resolveMark (now : Nat) (vh : String) (res : String) (c : Comment) : Comment :=
  { c with resolved := true, resolvedAt := some now,
           resolvedInVersion := some vh, resolution := some res }

/-- Mark one comment resolved with an explicit resolution text, applied to the
first comment whose id matches (mirrors `comments.find` + mutation). -/
def applyResolved (now : Nat) (vh : String) (rc : ResolvedCommentInput) :
    List Comment → List Comment
  | [] => []
  | c :: cs =>
    if c.id = rc.commentId then
      resolveMark now vh rc.resolution c :: cs
    else
      c :: applyResolved now vh rc cs

/-- Auto-resolution applied to every still-unresolved comment when the agent
submits a revision (the JS loop over `comments.filter (not resolved)`). -/
def autoResolve (now : Nat) (vh : String) (c : Comment) : Comment :=
  if c.resolved then c
  else resolveMark now vh defaultResolution c

/-- Pointwise form of one `resolvedComments` override applied to one comment;
used to characterize the override fold on reviews with distinct comment ids. -/
def resolveStep (now : Nat) (vh : String) (c : Comment) (rc : ResolvedCommentInput) : Comment :=
  if c.id = rc.commentId then resolveMark now vh rc.resolution c else c

/-- The version record appended by `updatePlanContent`. -/
def newVersionOf (hash : String → String) (now : Nat) (r : Review)
    (newContent : String) (options : UpdatePlanOptions) : DocumentVersion :=
  { versionHash := hash newContent
    content := newContent
    createdAt := now
    changeDescription := options.changeDescription
    author := some (options.author.getD .agent)
    previousVersion := some r.currentVersion }

/-- The comment transformation of `updatePlanContent`: auto-resolve every
unresolved comment when the author is the agent (or `autoResolveAll`), then
apply the explicit `resolvedComments` overrides in order. -/
def updatedComments (now : Nat) (vh : String) (options : UpdatePlanOptions)
    (cs : List Comment) : List Comment :=
  match options.resolvedComments with
  | some rcs =>
    rcs.foldl (fun l rc => applyResolved now vh rc l)
      (if options.author = some .agent ∨ options.autoResolveAll then
        cs.map (autoResolve now vh)
      else cs)
  | none =>
    if options.author = some .agent ∨ options.autoResolveAll then
      cs.map (autoResolve now vh)
    else cs

/-- `updatePlanContent` from `dist/review-manager.js`. -/
def updatePlanContent (hash : String → String) (now : Nat) (r : Review)
    (newContent : String) (options : UpdatePlanOptions) : Except String Review :=
  if options.author = some .agent ∧ r.status ≠ .changes_requested then
    .error "Agent cannot update plan from this status"
  else if hash newContent = r.currentVersion then
    .ok r
  else
    .ok { r with
      documentVersions := r.documentVersions ++ [newVersionOf hash now r newContent options]
      currentVersion := hash newContent
      planContent := newContent
      comments := updatedComments now (hash newContent) options r.comments
      status :=
        if options.author = some .agent ∧ r.status = .changes_requested then
          ReviewStatus.updated
        else r.status }

/-- `getDocumentVersion`: first version with the given hash. -/
def getDocumentVersion (r : Review) (versionHash : String) : Option DocumentVersion :=
  r.documentVersions.find? (fun v => v.versionHash = versionHash)

/-- `rollbackToVersion`: re-submits the target version's content as a new
version authored by the human. -/
def rollbackToVersion (hash : String → String) (now : Nat) (r : Review)
    (targetVersionHash : String) : Except String Review :=
  match getDocumentVersion r targetVersionHash with
  | none => .error "Version not found"
  | some targetVersion =>
    updatePlanContent hash now r targetVersion.content
      { changeDescription := some ("Rollback to version " ++ targetVersionHash.take 8)
        author := some .human }

/-- A line of a computed diff. -/
inductive DiffType where
  | added
  | removed
  | unchanged
deriving DecidableEq, Repr

/-- `DiffLine` with optional 1-based line numbers. -/
structure DiffLine where
  type : DiffType
  content : String
  oldLineNumber : Option Nat := none
  newLineNumber : Option Nat := none
deriving DecidableEq, Repr

/-- Diff statistics. -/
structure DiffStats where
  additions : Nat
  deletions : Nat
  unchanged : Nat
deriving DecidableEq, Repr

/-- `DiffResult`. -/
structure DiffResult where
  fromVersion : String
  toVersion : String
  lines : List DiffLine
  stats : DiffStats
deriving DecidableEq, Repr

/-- Split a character list at every newline character; JS
`content.split('\n')` on the underlying characters (an empty input yields one
empty segment, a trailing newline yields a trailing empty segment). -/
def splitCharsOnNl : List Char → List (List Char)
  | [] => [[]]
  | c :: cs =>
    match splitCharsOnNl cs with
    | [] => [[c]]
    | l :: ls => if c = '\n' then [] :: l :: ls else (c :: l) :: ls

/-- JS `content.split('\n')` over a string. -/
def splitLines (s : String) : List String :=
  (splitCharsOnNl s.data).map String.mk

/-- Fueled form of the LCS table recurrence; each recursive call lowers
`i + j` by at least one, so fuel `i + j` never runs out. Structural recursion
on the fuel keeps the function kernel-reducible. -/
def lcsLenAux (oldLines newLines : List String) : Nat → Nat → Nat → Nat
  | 0, _, _ => 0
  | _ + 1, 0, _ => 0
  | _ + 1, _ + 1, 0 => 0
  | fuel + 1, i + 1, j + 1 =>
    if oldLines.getD i "" = newLines.getD j "" then
      lcsLenAux oldLines newLines fuel i j + 1
    else
      max (lcsLenAux oldLines newLines fuel i (j + 1))
          (lcsLenAux oldLines newLines fuel (i + 1) j)

/-- The LCS table entry `dp[i][j]` of `computeLCSDiff`: length of the longest
common subsequence of the first `i` old lines and the first `j` new lines. -/
def lcsLen (oldLines newLines : List String) (i j : Nat) : Nat :=
  lcsLenAux oldLines newLines (i + j) i j

/-- Fueled form of the backtracking loop of `computeLCSDiff`; fuel `i + j`
suffices for the same reason as in `lcsLenAux`. -/
def backtrackAux (oldLines newLines : List String) : Nat → Nat → Nat → List DiffLine
  | 0, _, _ => []
  | fuel + 1, i, j =>
    if i = 0 ∧ j = 0 then
      []
    else if 0 < i ∧ 0 < j ∧ oldLines.getD (i - 1) "" = newLines.getD (j - 1) "" then
      { type := .unchanged, content := oldLines.getD (i - 1) ""
        oldLineNumber := some i, newLineNumber := some j }
        :: backtrackAux oldLines newLines fuel (i - 1) (j - 1)
    else if 0 < j ∧ (i = 0 ∨ lcsLen oldLines newLines i (j - 1) ≥ lcsLen oldLines newLines (i - 1) j) then
      { type := .added, content := newLines.getD (j - 1) ""
        newLineNumber := some j }
        :: backtrackAux oldLines newLines fuel i (j - 1)
    else
      { type := .removed, content := oldLines.getD (i - 1) ""
        oldLineNumber := some i }
        :: backtrackAux oldLines newLines fuel (i - 1) j

/-- The backtracking loop of `computeLCSDiff`, producing the entries in the
order the JS loop pushes them (bottom-right first; the caller reverses). -/
def backtrack (oldLines newLines : List String) (i j : Nat) : List DiffLine :=
  backtrackAux oldLines newLines (i + j) i j

/-- `computeLCSDiff`: build the table, backtrack from the bottom-right corner,
reverse into document order. -/
def computeLCSDiff (oldLines newLines : List String) : List DiffLine :=
  (backtrack oldLines newLines oldLines.length newLines.length).reverse

/-- `computeDiff`: line-based diff between two stored versions. -/
def computeDiff (r : Review) (fromHash toHash : String) : Option DiffResult :=
  match getDocumentVersion r fromHash, getDocumentVersion r toHash with
  | some fromVersion, some toVersion =>
    let fromLines := splitLines fromVersion.content
    let toLines := splitLines toVersion.content
    let diffLines := computeLCSDiff fromLines toLines
    some
      { fromVersion := fromHash
        toVersion := toHash
        lines := diffLines
        stats :=
          { additions := (diffLines.filter (fun l => l.type = .added)).length
            deletions := (diffLines.filter (fun l => l.type = .removed)).length
            unchanged := (diffLines.filter (fun l => l.type = .unchanged)).length } }
  | _, _ => none

/-- Payload of a `status_changed` event (`event-bus.ts`). -/
structure StatusChangedEvent where
  status : ReviewStatus
  previousStatus : ReviewStatus
  planContent : Option String := none
deriving DecidableEq, Repr

/-- Version header carried by a `version_updated` event. -/
structure VersionInfo where
  versionHash : String
  createdAt : Nat
  changeDescription : Option String := none
  author : Option Author := none
deriving DecidableEq, Repr

/-- Payload of a `version_updated` event. -/
structure VersionUpdatedEvent where
  version : VersionInfo
  content : String
  resolvedComments : List (String × String)
deriving DecidableEq, Repr

/-- `POST /api/reviews/:id/approve` handler: unconditionally sets `approved`,
records a non-empty note, and emits `status_changed` with the plan content
when the status actually changed. -/
def approveHandler (r : Review) (note : Option String) :
    Review × Option StatusChangedEvent :=
  let previousStatus := r.status
  let r' := { r with
    status := ReviewStatus.approved
    approvedDirectly := true
    approvalNote :=
      match note with
      | some s => if s = "" then r.approvalNote else some s
      | none => r.approvalNote }
  let ev :=
    if previousStatus ≠ r'.status then
      some { status := r'.status, previousStatus := previousStatus,
             planContent := some r'.planContent }
    else none
  (r', ev)

/-- `PUT /api/reviews/:id/plan` handler: records the previously unresolved
comment ids, runs `updatePlanContent` with `author || 'human'`, then emits a
`version_updated` event (when a version was created) whose `resolvedComments`
are the comments now resolved whose id was previously unresolved, and a
`status_changed` event when the status changed. -/
def putPlanHandler (hash : String → String) (now : Nat) (r : Review)
    (content : String) (changeDescription : Option String)
    (author : Option Author) (resolvedComments : Option (List ResolvedCommentInput)) :
    Except String (Review × Option VersionUpdatedEvent × Option StatusChangedEvent) :=
  match updatePlanContent hash now r content
      { changeDescription := changeDescription
        author := some (author.getD .human)
        resolvedComments := resolvedComments } with
  | .error e => .error e
  | .ok updatedReview =>
    .ok (updatedReview,
      (if r.currentVersion ≠ updatedReview.currentVersion then
        match updatedReview.documentVersions.find?
            (fun v => v.versionHash = updatedReview.currentVersion) with
        | some newVersion =>
          some
            { version :=
                { versionHash := newVersion.versionHash
                  createdAt := newVersion.createdAt
                  changeDescription := newVersion.changeDescription
                  author := newVersion.author }
              content := newVersion.content
              resolvedComments :=
                (updatedReview.comments.filter
                  (fun c => c.resolved &&
                    (((r.comments.filter (fun x => !x.resolved)).map (·.id)).contains c.id))).map
                  (fun c => (c.id, c.resolution.getD defaultResolution)) }
        | none => none
      else none),
      (if r.status ≠ updatedReview.status then
        some { status := updatedReview.status, previousStatus := r.status }
      else none))

/-- `encodeProjectPath`: strip one leading slash, replace `/` and `:` by
underscores. -/
def encodeProjectPath (projectPath : String) : String :=
  let p := if projectPath.startsWith "/" then projectPath.drop 1 else projectPath
  (p.replace "/" "_").replace ":" "_"

/-- The persisted store: the global directory plus per-project directories
keyed by the encoded project path; each directory maps review ids to records. -/
structure ReviewStore where
  globalDir : List (String × Review)
  projects : List (String × List (String × Review))
deriving Repr

/-- Read one review record from a directory listing. -/
def dirLookup (dir : List (String × Review)) (id : String) : Option Review :=
  (dir.find? (fun f => f.1 = id)).map (·.2)

/-- The files of one project directory (empty when the directory is absent). -/
def projectFiles (store : ReviewStore) (encoded : String) : List (String × Review) :=
  ((store.projects.find? (fun p => p.1 = encoded)).map (·.2)).getD []

/-- `getReview(id, projectPath?)` from `dist/review-manager.js`: with an
explicit project path only that project directory is read (a read failure
returns null at once); without one the global directory is read first and
then every project directory is scanned. -/
def getReview (store : ReviewStore) (id : String) (projectPath : Option String) :
    Option Review :=
  match projectPath with
  | some pp => dirLookup (projectFiles store (encodeProjectPath pp)) id
  | none =>
    match dirLookup store.globalDir id with
    | some r => some r
    | none => store.projects.findSome? (fun p => dirLookup p.2 id)

/-- The §4.2 transition edge set as written in the spec. -/
def spec42Edges : List (ReviewStatus × ReviewStatus) :=
  [(.open_, .approved), (.open_, .changes_requested),
   (.changes_requested, .discussing), (.changes_requested, .updated),
   (.discussing, .updated), (.discussing, .approved),
   (.updated, .approved), (.updated, .changes_requested)]

/-- The transition edges the code actually allows for status-changing
mutations: §4.2 plus `discussing → changes_requested` (submitFeedback) and
`changes_requested → approved` (the unconditional approve endpoint). -/
def codeEdges : List (ReviewStatus × ReviewStatus) :=
  spec42Edges ++ [(.discussing, .changes_requested), (.changes_requested, .approved)]

/-- Reviews reachable from a fresh review by any sequence of plan updates and
rollbacks (the sequences quantified over by the version-store invariants). -/
inductive Reachable (hash : String → String) : Review → Prop where
  | create (id : String) (now : Nat) (plan : String) (projectPath : Option String) :
      Reachable hash (createReview hash id now plan projectPath)
  | update (r r' : Review) (now : Nat) (content : String) (options : UpdatePlanOptions) :
      Reachable hash r → updatePlanContent hash now r content options = .ok r' →
      Reachable hash r'
  | rollback (r r' : Review) (now : Nat) (target : String) :
      Reachable hash r → rollbackToVersion hash now r target = .ok r' →
      Reachable hash r'

/-! Concrete fixtures for counterexamples and witnesses. `testHash` is an
injective stand-in for the SHA-256 digest (the source delegates hashing to the
crypto library; all that the control flow observes is digest equality). -/

/-- Stand-in content digest used by concrete test fixtures. -/
def testHash : String → String := fun s => "digest:" ++ s

/-- A comment fixture that is still unresolved. -/
def cUnresolved : Comment :=
  { id := "c1", createdAt := 0, quote := "line one", comment := "rename"
    position := { startOffset := 0, endOffset := 8 }, documentVersion := "v1" }

/-- A comment fixture that was already resolved earlier. -/
def cResolved : Comment :=
  { id := "c0", createdAt := 0, quote := "line two", comment := "old remark"
    position := { startOffset := 9, endOffset := 17 }, documentVersion := "v1"
    resolved := true, resolvedAt := some 0, resolution := some "handled before" }

/-- A review sitting in `discussing`. -/
def rDisc : Review :=
  { id := "r-disc", createdAt := 0, status := .discussing, planContent := "p"
    comments := [], documentVersions := [{ versionHash := "v1", content := "p", createdAt := 0 }]
    currentVersion := "v1" }

/-- A review in `changes_requested` with one unresolved comment. -/
def rCR : Review :=
  { id := "r-cr", createdAt := 0, status := .changes_requested
    planContent := "line one\nline two\nline three"
    comments := [cResolved, cUnresolved]
    documentVersions :=
      [{ versionHash := testHash "line one\nline two\nline three"
         content := "line one\nline two\nline three", createdAt := 0 }]
    currentVersion := testHash "line one\nline two\nline three" }

/-- A review holding the two versions of scenario S6. -/
def rDiffS6 : Review :=
  { id := "r-diff", createdAt := 0, status := .open_, planContent := "a\nX\nc"
    comments := []
    documentVersions :=
      [{ versionHash := "v1", content := "a\nb\nc", createdAt := 0 },
       { versionHash := "v2", content := "a\nX\nc", createdAt := 1 }]
    currentVersion := "v2" }

/-- A store whose only record lives in the global directory. -/
def storeGlobalOnly : ReviewStore :=
  { globalDir := [("r-disc", rDisc)], projects := [] }

/-- A choice question without options (fixture for the schema gap). -/
def qsChoiceNoOptions : List QuestionInput :=
  [{ commentId := "c1", type := .choice, message := "Which name?" }]

/-- An all-`accepted` question list covering the only unresolved comment. -/
def qsAllAccepted : List QuestionInput :=
  [{ commentId := "c1", type := .accepted, message := "will do" }]

/-- The review produced by asking `qsAllAccepted` on `rCR`: every comment is
resolved, yet the status is `discussing`. -/
def rCRAccepted : Review :=
  { rCR with
    status := .discussing
    comments :=
      [cResolved,
       { cUnresolved with
          resolved := true, resolvedAt := some 0, resolution := some "will do"
          question := some { type := .accepted, message := "will do" } }] }

/-- A fresh review over content `"a"`. -/
def rA : Review := createReview testHash "idA" 0 "a" none

/-- `rA` after a human update to content `"b"`. -/
def rAB : Except String Review :=
  updatePlanContent testHash 1 rA "b" { author := some .human }

/-- `rAB` rolled back to the digest of the original content `"a"`. -/
def rABA : Except String Review :=
  rAB.bind (fun r => rollbackToVersion testHash 2 r (testHash "a"))

/-- A comment carrying a pending question. -/
def cQuestioned : Comment :=
  { id := "c1", createdAt := 0, quote := "line one", comment := "rename"
    position := { startOffset := 0, endOffset := 8 }, documentVersion := "v1"
    question := some { type := .choice, message := "Which name?"
                       options := some ["lineOne", "LINE_ONE"] } }

/-- A review in `discussing` whose comment awaits an answer. -/
def rQA : Review :=
  { id := "r-qa", createdAt := 0, status := .discussing
    planContent := "line one\nline two\nline three"
    comments := [cResolved, cQuestioned]
    documentVersions :=
      [{ versionHash := "v1", content := "line one\nline two\nline three", createdAt := 0 }]
    currentVersion := "v1" }

/-- An explicit resolution override for comment `c1`. -/
def rcsOverride : List ResolvedCommentInput :=
  [{ commentId := "c1", resolution := "renamed as requested" }]

/-- The review produced by the plan-update endpoint on `rCR` for the agent
revision of scenario S2. -/
def putPlanResFixture : Review :=
  { rCR with
    status := .updated
    planContent := "line ONE\nline two\nline three"
    comments :=
      [cResolved,
       { cUnresolved with
          resolved := true, resolvedAt := some 7
          resolvedInVersion := some (testHash "line ONE\nline two\nline three")
          resolution := some defaultResolution }]
    documentVersions :=
      rCR.documentVersions ++
        [{ versionHash := testHash "line ONE\nline two\nline three"
           content := "line ONE\nline two\nline three", createdAt := 7
           author := some .agent
           previousVersion := some (testHash "line one\nline two\nline three") }]
    currentVersion := testHash "line ONE\nline two\nline three" }

/-- The `version_updated` event published for that revision. -/
def putPlanEvFixture : VersionUpdatedEvent :=
  { version :=
      { versionHash := testHash "line ONE\nline two\nline three", createdAt := 7
        author := some .agent }
    content := "line ONE\nline two\nline three"
    resolvedComments := [("c1", defaultResolution)] }

/-- The `status_changed` event published for that revision. -/
def putPlanSeFixture : Option StatusChangedEvent :=
  some { status := .updated, previousStatus := .changes_requested }

/-! Elimination lemmas for the operations of the state engine. -/

theorem submitFeedback_ok_elim {r r' : Review} (h : submitFeedback r = .ok r') :
    (r.status = .open_ ∨ r.status = .updated ∨ r.status = .discussing) ∧
      r' = { r with status := .changes_requested } := by
  unfold submitFeedback at h
  split at h
  · exact (Except.noConfusion h)
  · rename_i hc
    refine ⟨?_, (Except.ok.inj h).symm⟩
    by_contra hn
    push_neg at hn
    exact hc ⟨hn.1, hn.2.1, hn.2.2⟩

theorem approveReview_ok_elim {r r' : Review} (h : approveReview r = .ok r') :
    (r.status = .open_ ∨ r.status = .updated) ∧ r' = { r with status := .approved } := by
  unfold approveReview at h
  split at h
  · exact (Except.noConfusion h)
  · rename_i hc
    refine ⟨?_, (Except.ok.inj h).symm⟩
    by_contra hn
    push_neg at hn
    exact hc ⟨hn.1, hn.2⟩

theorem askQuestions_ok_elim {now : Nat} {r : Review} {qs : List QuestionInput} {r' : Review}
    (h : askQuestions now r qs = .ok r') :
    r.status = .changes_requested ∧
      r' = { r with
        comments := qs.foldl (fun cs q => applyQuestion now q cs) r.comments
        status := .discussing } := by
  unfold askQuestions at h
  split at h
  · exact (Except.noConfusion h)
  · rename_i hst
    split at h
    · exact (Except.noConfusion h)
    · exact ⟨not_not.mp hst, (Except.ok.inj h).symm⟩

theorem updatePlanContent_ok_elim {hash : String → String} {now : Nat} {r : Review}
    {c : String} {o : UpdatePlanOptions} {r' : Review}
    (h : updatePlanContent hash now r c o = .ok r') :
    (hash c = r.currentVersion ∧ r' = r) ∨
    (hash c ≠ r.currentVersion ∧
     ¬(o.author = some .agent ∧ r.status ≠ .changes_requested) ∧
     r' = { r with
        documentVersions := r.documentVersions ++ [newVersionOf hash now r c o]
        currentVersion := hash c
        planContent := c
        comments := updatedComments now (hash c) o r.comments
        status :=
          if o.author = some .agent ∧ r.status = .changes_requested then .updated
          else r.status }) := by
  unfold updatePlanContent at h
  split at h
  · exact (Except.noConfusion h)
  · rename_i hguard
    split at h
    · exact Or.inl ⟨‹_›, (Except.ok.inj h).symm⟩
    · exact Or.inr ⟨‹_›, hguard, (Except.ok.inj h).symm⟩

theorem updatePlanContent_ok_status {hash : String → String} {now : Nat} {r : Review}
    {c : String} {o : UpdatePlanOptions} {r' : Review}
    (h : updatePlanContent hash now r c o = .ok r') :
    r'.status = r.status ∨
      (o.author = some .agent ∧ r.status = .changes_requested ∧ r'.status = .updated) := by
  rcases updatePlanContent_ok_elim h with ⟨_, rfl⟩ | ⟨_, _, rfl⟩
  · exact Or.inl rfl
  · by_cases hag : o.author = some .agent ∧ r.status = .changes_requested
    · exact Or.inr ⟨hag.1, hag.2, by simp [hag]⟩
    · exact Or.inl (by simp [hag])

theorem updatePlanContent_agent_error {hash : String → String} {now : Nat} {r : Review}
    {c : String} {o : UpdatePlanOptions}
    (ha : o.author = some .agent) (hs : r.status ≠ .changes_requested) :
    updatePlanContent hash now r c o = .error "Agent cannot update plan from this status" := by
  unfold updatePlanContent
  simp [ha, hs]

/-- C1 counterexample: the code lets `submitFeedback` move a `discussing`
review to `changes_requested`, and lets the approve endpoint move a
`changes_requested` review to `approved`; neither pair is an edge of the
§4.2 transition set. -/
theorem C1_counterexample :
    submitFeedback rDisc = .ok { rDisc with status := .changes_requested } ∧
    (ReviewStatus.discussing, ReviewStatus.changes_requested) ∉ spec42Edges ∧
    (approveHandler rCR none).1.status = .approved ∧
    (ReviewStatus.changes_requested, ReviewStatus.approved) ∉ spec42Edges := by
  decide

/-- C1 (amended): every successful status-changing mutation follows an edge of
the §4.2 set extended with `discussing → changes_requested` (submit feedback)
and `changes_requested → approved` (the unconditional approve endpoint), and
each manager operation rejects the states outside its guard with an error,
leaving the review unchanged. -/
theorem C1_transitions :
    (∀ r r' : Review, submitFeedback r = .ok r' → (r.status, r'.status) ∈ codeEdges) ∧
    (∀ r r' : Review, approveReview r = .ok r' → (r.status, r'.status) ∈ codeEdges) ∧
    (∀ (r : Review) (note : Option String), r.status ≠ .approved →
        (r.status, ((approveHandler r note).1).status) ∈ codeEdges) ∧
    (∀ (now : Nat) (r : Review) (qs : List QuestionInput) (r' : Review),
        askQuestions now r qs = .ok r' → (r.status, r'.status) ∈ codeEdges) ∧
    (∀ (hash : String → String) (now : Nat) (r : Review) (c : String)
        (o : UpdatePlanOptions) (r' : Review),
        updatePlanContent hash now r c o = .ok r' → r'.status ≠ r.status →
        (r.status, r'.status) ∈ codeEdges) ∧
    (∀ r : Review, r.status = .changes_requested ∨ r.status = .approved →
        submitFeedback r = .error "Cannot submit feedback from this status") ∧
    (∀ r : Review, r.status = .changes_requested ∨ r.status = .discussing ∨ r.status = .approved →
        approveReview r = .error "Cannot approve from this status") ∧
    (∀ (now : Nat) (r : Review) (qs : List QuestionInput), r.status ≠ .changes_requested →
        askQuestions now r qs = .error "Cannot ask questions from this status") ∧
    (∀ (hash : String → String) (now : Nat) (r : Review) (c : String) (o : UpdatePlanOptions),
        o.author = some .agent → r.status ≠ .changes_requested →
        updatePlanContent hash now r c o = .error "Agent cannot update plan from this status") := by
  refine ⟨?_, ?_, ?_, ?_, ?_, ?_, ?_, ?_, ?_⟩
  · intro r r' h
    obtain ⟨hs, rfl⟩ := submitFeedback_ok_elim h
    show (r.status, ReviewStatus.changes_requested) ∈ codeEdges
    rcases hs with h1 | h1 | h1 <;> rw [h1] <;> decide
  · intro r r' h
    obtain ⟨hs, rfl⟩ := approveReview_ok_elim h
    show (r.status, ReviewStatus.approved) ∈ codeEdges
    rcases hs with h1 | h1 <;> rw [h1] <;> decide
  · intro r note h
    show (r.status, ReviewStatus.approved) ∈ codeEdges
    cases hs : r.status
    case approved => exact absurd hs h
    all_goals decide
  · intro now r qs r' h
    obtain ⟨hs, rfl⟩ := askQuestions_ok_elim h
    show (r.status, ReviewStatus.discussing) ∈ codeEdges
    rw [hs]
    decide
  · intro hash now r c o r' h hne
    rcases updatePlanContent_ok_status h with heq | ⟨_, hcr, hupd⟩
    · exact absurd heq hne
    · rw [hupd, hcr]; decide
  · intro r hs
    unfold submitFeedback
    rcases hs with h1 | h1 <;> simp [h1]
  · intro r hs
    unfold approveReview
    rcases hs with h1 | h1 | h1 <;> simp [h1]
  · intro now r qs hs
    unfold askQuestions
    simp [hs]
  · intro hash now r c o ha hs
    exact updatePlanContent_agent_error ha hs

/-- C1 witness: the amended transition theorem applied to the concrete
`discussing` review. -/
theorem C1_transitions_witness :
    (ReviewStatus.discussing, ReviewStatus.changes_requested) ∈ codeEdges :=
  C1_transitions.1 rDisc { rDisc with status := .changes_requested } (by decide)

/-- C3: from any non-terminal state the approve endpoint succeeds: it sets
`approved`, keeps the plan content, records a non-empty reviewer note, and
the emitted `status_changed` event carries the review's current plan
content. -/
theorem C3_approve_unconditional (r : Review) (note : Option String)
    (h : r.status ≠ .approved) :
    (approveHandler r note).1.status = .approved ∧
    (approveHandler r note).1.planContent = r.planContent ∧
    (∀ s : String, note = some s → s ≠ "" → (approveHandler r note).1.approvalNote = some s) ∧
    (note = none → (approveHandler r note).1.approvalNote = r.approvalNote) ∧
    (approveHandler r note).2 =
      some { status := .approved, previousStatus := r.status
             planContent := some r.planContent } := by
  unfold approveHandler
  refine ⟨rfl, rfl, ?_, ?_, ?_⟩
  · intro s hs hne
    subst hs
    simp [hne]
  · intro hn
    subst hn
    rfl
  · simp [h]

/-- C3 witness: approving the concrete `discussing` review with a note. -/
theorem C3_approve_witness :
    (approveHandler rDisc (some "ship it")).1.status = .approved ∧
    (approveHandler rDisc (some "ship it")).2 =
      some { status := .approved, previousStatus := .discussing, planContent := some "p" } := by
  have h := C3_approve_unconditional rDisc (some "ship it") (by decide)
  exact ⟨h.1, h.2.2.2.2⟩

/-- C5: the S6 diff example evaluates exactly as specified, and in general the
backtracking step of the LCS diff takes the added direction whenever the two
compared table cells are equal. -/
theorem C5_diff :
    computeDiff rDiffS6 "v1" "v2" =
      some { fromVersion := "v1", toVersion := "v2"
             lines :=
               [{ type := .unchanged, content := "a", oldLineNumber := some 1, newLineNumber := some 1 },
                { type := .removed, content := "b", oldLineNumber := some 2 },
                { type := .added, content := "X", newLineNumber := some 2 },
                { type := .unchanged, content := "c", oldLineNumber := some 3, newLineNumber := some 3 }]
             stats := { additions := 1, deletions := 1, unchanged := 2 } } ∧
    (∀ (oldLines newLines : List String) (i j : Nat),
       0 < i → 0 < j →
       oldLines.getD (i - 1) "" ≠ newLines.getD (j - 1) "" →
       lcsLen oldLines newLines i (j - 1) = lcsLen oldLines newLines (i - 1) j →
       backtrack oldLines newLines i j =
         { type := .added, content := newLines.getD (j - 1) "", newLineNumber := some j }
           :: backtrack oldLines newLines i (j - 1)) := by
  constructor
  · decide
  · intro oldLines newLines i j hi hj hne hties
    obtain ⟨k, hk⟩ : ∃ k, i + j = k + 1 := ⟨i + j - 1, by omega⟩
    unfold backtrack
    rw [hk]
    show backtrackAux oldLines newLines (k + 1) i j = _
    rw [backtrackAux]
    rw [if_neg (show ¬(i = 0 ∧ j = 0) by omega)]
    rw [if_neg (show ¬(0 < i ∧ 0 < j ∧ oldLines.getD (i - 1) "" = newLines.getD (j - 1) "")
          from fun hc => hne hc.2.2)]
    rw [if_pos ⟨hj, Or.inr hties.ge⟩]
    rw [show k = i + (j - 1) from by omega]

/-- C5 witness: the tie-break conjunct applied to a concrete one-line pair. -/
theorem C5_diff_witness :
    backtrack ["x"] ["y"] 1 1 =
      { type := .added, content := "y", newLineNumber := some 1 } :: backtrack ["x"] ["y"] 1 0 :=
  C5_diff.2 ["x"] ["y"] 1 1 (by decide) (by decide) (by decide) (by decide)

/-- C6: validation gap — a `choice` question supplied without options is
accepted and stored (the review reaches `discussing`), while the missing
coverage precondition is enforced with a validation error. -/
theorem C6_options_gap :
    (askQuestions 0 rCR qsChoiceNoOptions).toOption.map Review.status = some .discussing ∧
    (askQuestions 0 rCR qsChoiceNoOptions).toOption.map
        (fun r => r.comments.map (·.question)) =
      some [none, some { type := .choice, message := "Which name?", options := none }] ∧
    askQuestions 0 rCR [] = .error "Must provide questions for all unresolved comments" := by
  decide

/-- C7 counterexample: with an all-`accepted` question list every comment
resolves, yet the status still becomes `discussing` instead of staying
`changes_requested`. -/
theorem C7_counterexample :
    (askQuestions 0 rCR qsAllAccepted).toOption.map Review.status = some .discussing ∧
    (askQuestions 0 rCR qsAllAccepted).toOption.map (fun r => r.comments.all (·.resolved)) =
      some true ∧
    ReviewStatus.discussing ≠ ReviewStatus.changes_requested := by
  decide

/-- C7 (amended): every successful `askQuestions` call sets the status to
`discussing`, regardless of the question types. -/
theorem C7_always_discussing (now : Nat) (r : Review) (qs : List QuestionInput) (r' : Review)
    (h : askQuestions now r qs = .ok r') : r'.status = .discussing := by
  obtain ⟨_, rfl⟩ := askQuestions_ok_elim h
  rfl

/-- C7 witness: the amended theorem applied to the all-`accepted` call. -/
theorem C7_always_discussing_witness : rCRAccepted.status = .discussing :=
  C7_always_discussing 0 rCR qsAllAccepted rCRAccepted (by decide)

/-- C9 counterexample: a review stored only in the global directory is not
found when an explicit project path is supplied, although a lookup without a
project path returns it. -/
theorem C9_counterexample :
    getReview storeGlobalOnly "r-disc" (some "/proj") = none ∧
    getReview storeGlobalOnly "r-disc" none = some rDisc := by
  decide

/-- C9 (amended): with an explicit project path only that project directory is
consulted and a miss is final; the global-then-scan fallback applies only when
no project path is given. -/
theorem C9_search_order :
    (∀ (store : ReviewStore) (id pp : String),
       dirLookup (projectFiles store (encodeProjectPath pp)) id = none →
       getReview store id (some pp) = none) ∧
    (∀ (store : ReviewStore) (id : String) (r : Review),
       dirLookup store.globalDir id = some r → getReview store id none = some r) ∧
    (∀ (store : ReviewStore) (id : String),
       dirLookup store.globalDir id = none →
       getReview store id none = store.projects.findSome? (fun p => dirLookup p.2 id)) := by
  refine ⟨?_, ?_, ?_⟩
  · intro store id pp h
    exact h
  · intro store id r h
    unfold getReview
    rw [h]
  · intro store id h
    unfold getReview
    rw [h]

/-- C9 witness: the amended search-order theorem applied to the concrete
global-only store. -/
theorem C9_search_order_witness :
    getReview storeGlobalOnly "r-disc" (some "/proj") = none :=
  C9_search_order.1 storeGlobalOnly "r-disc" "/proj" (by decide)

theorem updatePlanContent_ok_versions {hash : String → String} {now : Nat} {r : Review}
    {c : String} {o : UpdatePlanOptions} {r' : Review}
    (h : updatePlanContent hash now r c o = .ok r') :
    r'.documentVersions = r.documentVersions ∨
      r'.documentVersions = r.documentVersions ++ [newVersionOf hash now r c o] := by
  rcases updatePlanContent_ok_elim h with ⟨_, rfl⟩ | ⟨_, _, rfl⟩
  · exact Or.inl rfl
  · exact Or.inr rfl

/-- C4 counterexample: after a human update from content `a` to `b`, the digest
of `a` still identifies the first stored version, yet rolling back to it is
not a no-op — it appends a third version with a duplicate digest. -/
theorem C4_counterexample :
    rAB.toOption.map (fun r => r.documentVersions.map (·.versionHash)) =
      some [testHash "a", testHash "b"] ∧
    rABA.toOption.map (fun r => r.documentVersions.map (·.versionHash)) =
      some [testHash "a", testHash "b", testHash "a"] ∧
    testHash "a" ≠ testHash "b" := by
  decide

/-- C4 (amended): over every update and rollback sequence each stored version
is content-addressed (`versionHash = hash content`), and re-submitting content
whose digest equals the current version's digest is a no-op; content matching
only an older version's digest appends a new (duplicate-digest) version. -/
theorem C4_hash_invariant :
    (∀ (hash : String → String) (r : Review), Reachable hash r →
       ∀ v ∈ r.documentVersions, v.versionHash = hash v.content) ∧
    (∀ (hash : String → String) (now : Nat) (r : Review) (c : String) (o : UpdatePlanOptions),
       ¬(o.author = some .agent ∧ r.status ≠ .changes_requested) →
       hash c = r.currentVersion →
       updatePlanContent hash now r c o = .ok r) := by
  constructor
  · intro hash r hreach
    induction hreach with
    | create id now plan projectPath =>
      intro v hv
      simp only [createReview, List.mem_singleton] at hv
      subst hv
      rfl
    | update r r' now c o hr hok ih =>
      intro v hv
      rcases updatePlanContent_ok_versions hok with he | he
      · exact ih v (he ▸ hv)
      · rw [he] at hv
        rcases List.mem_append.mp hv with h1 | h1
        · exact ih v h1
        · rw [List.mem_singleton.mp h1]
          rfl
    | rollback r r' now target hr hok ih =>
      intro v hv
      unfold rollbackToVersion at hok
      cases htv : getDocumentVersion r target with
      | none =>
        rw [htv] at hok
        exact (Except.noConfusion hok)
      | some tv =>
        rw [htv] at hok
        rcases updatePlanContent_ok_versions hok with he | he
        · exact ih v (he ▸ hv)
        · rw [he] at hv
          rcases List.mem_append.mp hv with h1 | h1
          · exact ih v h1
          · rw [List.mem_singleton.mp h1]
            rfl
  · intro hash now r c o hg he
    unfold updatePlanContent
    rw [if_neg hg, if_pos he]

/-- C4 witness: the content-addressing invariant on a freshly created review,
and the duplicate-of-current no-op at concrete inputs. -/
theorem C4_hash_invariant_witness :
    (∀ v ∈ rA.documentVersions, v.versionHash = testHash v.content) ∧
    updatePlanContent testHash 5 rA "a" {} = .ok rA :=
  ⟨C4_hash_invariant.1 testHash rA (.create "idA" 0 "a" none),
   C4_hash_invariant.2 testHash 5 rA "a" {} (by decide) (by decide)⟩

theorem applyAnswer_forall₂ (cid ans : String) (cs : List Comment) :
    List.Forall₂ (fun c0 c1 => c1 = c0 ∨ (c0.id = cid ∧ c1 = { c0 with answer := some ans }))
      cs (applyAnswer cid ans cs) := by
  induction cs with
  | nil => exact List.Forall₂.nil
  | cons c cs ih =>
    simp only [applyAnswer]
    split
    · rename_i hc
      exact List.Forall₂.cons (Or.inr ⟨hc, rfl⟩)
        (List.forall₂_same.mpr (fun x _ => Or.inl rfl))
    · exact List.Forall₂.cons (Or.inl rfl) ih

/-- C10: `answerQuestion` stores the answer on the targeted comment and changes
nothing else; when the comment is missing or carries no question it returns
`none` and leaves the review untouched. -/
theorem C10_answer_frame (r : Review) (cid ans : String) :
    (r.comments.find? (fun x => x.id = cid) = none → answerQuestion r cid ans = (none, r)) ∧
    (∀ c : Comment, r.comments.find? (fun x => x.id = cid) = some c → c.question = none →
       answerQuestion r cid ans = (none, r)) ∧
    (∀ (c : Comment) (q : CommentQuestion),
       r.comments.find? (fun x => x.id = cid) = some c → c.question = some q →
       (answerQuestion r cid ans).1 = some { c with answer := some ans } ∧
       (answerQuestion r cid ans).2.status = r.status ∧
       (answerQuestion r cid ans).2.planContent = r.planContent ∧
       (answerQuestion r cid ans).2.documentVersions = r.documentVersions ∧
       (answerQuestion r cid ans).2.currentVersion = r.currentVersion ∧
       List.Forall₂
         (fun c0 c1 => c1 = c0 ∨ (c0.id = cid ∧ c1 = { c0 with answer := some ans }))
         r.comments (answerQuestion r cid ans).2.comments) := by
  refine ⟨?_, ?_, ?_⟩
  · intro h
    unfold answerQuestion
    rw [h]
  · intro c hf hq
    unfold answerQuestion
    rw [hf]
    dsimp only
    rw [hq]
  · intro c q hf hq
    unfold answerQuestion
    rw [hf]
    dsimp only
    rw [hq]
    exact ⟨rfl, rfl, rfl, rfl, rfl, applyAnswer_forall₂ cid ans r.comments⟩

/-- C10 witness: answering the concrete pending question. -/
theorem C10_answer_frame_witness :
    (answerQuestion rQA "c1" "LINE_ONE").1 =
      some { cQuestioned with answer := some "LINE_ONE" } ∧
    (answerQuestion rQA "c1" "LINE_ONE").2.status = rQA.status := by
  have h := (C10_answer_frame rQA "c1" "LINE_ONE").2.2 cQuestioned
    { type := .choice, message := "Which name?", options := some ["lineOne", "LINE_ONE"] }
    (by decide) (by decide)
  exact ⟨h.1, h.2.1⟩

theorem autoResolve_id (now : Nat) (vh : String) (c : Comment) :
    (autoResolve now vh c).id = c.id := by
  unfold autoResolve resolveMark
  split <;> rfl

theorem applyResolved_ids (now : Nat) (vh : String) (rc : ResolvedCommentInput)
    (cs : List Comment) :
    (applyResolved now vh rc cs).map (·.id) = cs.map (·.id) := by
  induction cs with
  | nil => rfl
  | cons c cs ih =>
    simp only [applyResolved]
    split
    · simp [resolveMark]
    · simp only [List.map_cons, ih]

theorem foldl_applyResolved_ids (now : Nat) (vh : String)
    (rcs : List ResolvedCommentInput) (cs : List Comment) :
    ((rcs.foldl (fun l rc => applyResolved now vh rc l) cs).map (·.id)) = cs.map (·.id) := by
  induction rcs generalizing cs with
  | nil => rfl
  | cons rc rcs ih =>
    simp only [List.foldl_cons]
    rw [ih, applyResolved_ids]

theorem map_autoResolve_ids (now : Nat) (vh : String) (cs : List Comment) :
    ((cs.map (autoResolve now vh)).map (·.id)) = cs.map (·.id) := by
  rw [List.map_map]
  exact List.map_congr_left (fun c _ => autoResolve_id now vh c)

theorem updatedComments_ids (now : Nat) (vh : String) (o : UpdatePlanOptions)
    (cs : List Comment) :
    (updatedComments now vh o cs).map (·.id) = cs.map (·.id) := by
  unfold updatedComments
  cases o.resolvedComments with
  | none =>
    dsimp only
    split
    · exact map_autoResolve_ids now vh cs
    · rfl
  | some rcs =>
    dsimp only
    rw [foldl_applyResolved_ids]
    split
    · exact map_autoResolve_ids now vh cs
    · rfl

theorem updatePlanContent_ok_ids {hash : String → String} {now : Nat} {r : Review}
    {c : String} {o : UpdatePlanOptions} {r' : Review}
    (h : updatePlanContent hash now r c o = .ok r') :
    r'.comments.map (·.id) = r.comments.map (·.id) := by
  rcases updatePlanContent_ok_elim h with ⟨_, rfl⟩ | ⟨_, _, rfl⟩
  · rfl
  · exact updatedComments_ids now (hash c) _ r.comments

/-- C8: every `version_updated` event published by the plan-update endpoint
lists exactly the comment ids whose resolved flag flipped from false (before
the update) to true (after it), each paired with its resolution message. -/
theorem C8_version_event (hash : String → String) (now : Nat) (r : Review)
    (content : String) (d : Option String) (author : Option Author)
    (rcs : Option (List ResolvedCommentInput)) (r' : Review)
    (ev : VersionUpdatedEvent) (se : Option StatusChangedEvent)
    (h : putPlanHandler hash now r content d author rcs = .ok (r', some ev, se)) :
    r'.comments.map (·.id) = r.comments.map (·.id) ∧
    (∀ s : String,
       s ∈ ev.resolvedComments.map Prod.fst ↔
         ((∃ c ∈ r.comments, c.id = s ∧ c.resolved = false) ∧
          (∃ c ∈ r'.comments, c.id = s ∧ c.resolved = true))) ∧
    (∀ p ∈ ev.resolvedComments, ∃ c ∈ r'.comments,
       c.id = p.1 ∧ c.resolved = true ∧ p.2 = c.resolution.getD defaultResolution) := by
  unfold putPlanHandler at h
  cases hup : updatePlanContent hash now r content
      { changeDescription := d, author := some (author.getD .human), resolvedComments := rcs } with
  | error e =>
    rw [hup] at h
    exact (Except.noConfusion h)
  | ok u =>
    rw [hup] at h
    simp only [Except.ok.injEq, Prod.mk.injEq] at h
    obtain ⟨rfl, hv, -⟩ := h
    split at hv
    · split at hv
      · rename_i newVersion hfind
        simp only [Option.some.injEq] at hv
        subst hv
        refine ⟨updatePlanContent_ok_ids hup, ?_, ?_⟩
        · intro s
          constructor
          · intro hs
            simp only [List.map_map, List.mem_map, List.mem_filter, Function.comp_apply,
              Bool.and_eq_true] at hs
            obtain ⟨c, ⟨hcu, hres, hcont⟩, rfl⟩ := hs
            have hid := List.elem_iff.mp hcont
            simp only [List.mem_map, List.mem_filter, Bool.not_eq_true'] at hid
            obtain ⟨c0, ⟨hc0r, hc0res⟩, hc0id⟩ := hid
            exact ⟨⟨c0, hc0r, hc0id, hc0res⟩, ⟨c, hcu, rfl, hres⟩⟩
          · rintro ⟨⟨c0, hc0r, hc0id, hc0res⟩, ⟨c, hcu, hcid, hres⟩⟩
            simp only [List.map_map, List.mem_map, List.mem_filter, Function.comp_apply,
              Bool.and_eq_true]
            refine ⟨c, ⟨hcu, hres, List.elem_iff.mpr ?_⟩, hcid⟩
            simp only [List.mem_map, List.mem_filter, Bool.not_eq_true']
            exact ⟨c0, ⟨hc0r, hc0res⟩, hc0id.trans hcid.symm⟩
        · intro p hp
          simp only [List.mem_map, List.mem_filter, Bool.and_eq_true] at hp
          obtain ⟨c, ⟨hcu, hres, -⟩, rfl⟩ := hp
          exact ⟨c, hcu, rfl, hres, rfl⟩
      · exact (Option.noConfusion hv)
    · exact (Option.noConfusion hv)

theorem resolveStep_id (now : Nat) (vh : String) (c : Comment) (rc : ResolvedCommentInput) :
    (resolveStep now vh c rc).id = c.id := by
  unfold resolveStep
  split <;> rfl

theorem map_resolveStep_ids (now : Nat) (vh : String) (rc : ResolvedCommentInput)
    (cs : List Comment) :
    ((cs.map (fun c => resolveStep now vh c rc)).map (·.id)) = cs.map (·.id) := by
  rw [List.map_map]
  exact List.map_congr_left (fun c _ => resolveStep_id now vh c rc)

theorem applyResolved_eq_map (now : Nat) (vh : String) (rc : ResolvedCommentInput)
    (cs : List Comment) (hnd : (cs.map (·.id)).Nodup) :
    applyResolved now vh rc cs = cs.map (fun c => resolveStep now vh c rc) := by
  induction cs with
  | nil => rfl
  | cons c cs ih =>
    simp only [List.map_cons, List.nodup_cons] at hnd
    obtain ⟨hni, hnd⟩ := hnd
    by_cases hc : c.id = rc.commentId
    · simp only [applyResolved, if_pos hc, List.map_cons, resolveStep]
      congr 1
      have hcong : ∀ x ∈ cs,
          (if x.id = rc.commentId then resolveMark now vh rc.resolution x else x) = x := by
        intro x hx
        rw [if_neg]
        intro he
        exact hni (List.mem_map.mpr ⟨x, hx, he.trans hc.symm⟩)
      exact ((List.map_congr_left hcong).trans (List.map_id cs)).symm
    · simp only [applyResolved, if_neg hc, List.map_cons, resolveStep]
      exact congrArg (List.cons c) (ih hnd)

theorem foldl_applyResolved_eq_map (now : Nat) (vh : String)
    (rcs : List ResolvedCommentInput) (cs : List Comment)
    (hnd : (cs.map (·.id)).Nodup) :
    rcs.foldl (fun l rc => applyResolved now vh rc l) cs =
      cs.map (fun c => rcs.foldl (resolveStep now vh) c) := by
  induction rcs generalizing cs with
  | nil =>
    simp only [List.foldl_nil]
    exact (List.map_id cs).symm
  | cons rc rcs ih =>
    simp only [List.foldl_cons]
    rw [applyResolved_eq_map now vh rc cs hnd]
    rw [ih _ (by rw [map_resolveStep_ids]; exact hnd)]
    rw [List.map_map]
    rfl

theorem foldl_resolveStep_id (now : Nat) (vh : String)
    (rcs : List ResolvedCommentInput) (c : Comment) :
    (rcs.foldl (resolveStep now vh) c).id = c.id := by
  induction rcs generalizing c with
  | nil => rfl
  | cons rc rcs ih =>
    simp only [List.foldl_cons]
    rw [ih]
    exact resolveStep_id now vh c rc

theorem foldl_resolveStep_skip (now : Nat) (vh : String)
    (rcs : List ResolvedCommentInput) (c : Comment)
    (h : ∀ rc ∈ rcs, rc.commentId ≠ c.id) :
    rcs.foldl (resolveStep now vh) c = c := by
  induction rcs with
  | nil => rfl
  | cons rc rcs ih =>
    simp only [List.foldl_cons, resolveStep]
    rw [if_neg (fun he => h rc (List.mem_cons_self rc rcs) he.symm)]
    exact ih (fun rc' h' => h rc' (List.mem_cons_of_mem rc h'))

theorem foldl_resolveStep_find (now : Nat) (vh : String)
    (rcs : List ResolvedCommentInput) (c : Comment) (sid : String) (hid : c.id = sid)
    (hnd : (rcs.map (·.commentId)).Nodup) :
    rcs.foldl (resolveStep now vh) c =
      match rcs.find? (fun rc => rc.commentId = sid) with
      | some rc => resolveMark now vh rc.resolution c
      | none => c := by
  induction rcs with
  | nil => rfl
  | cons rc rcs ih =>
    simp only [List.map_cons, List.nodup_cons] at hnd
    obtain ⟨hni, hnd⟩ := hnd
    simp only [List.foldl_cons]
    by_cases hc : rc.commentId = sid
    · rw [List.find?_cons_of_pos _ (by simp [hc])]
      rw [show resolveStep now vh c rc = resolveMark now vh rc.resolution c from
        by unfold resolveStep; rw [if_pos (hid.trans hc.symm)]]
      exact foldl_resolveStep_skip now vh rcs _
        (fun rc' h' he => hni (List.mem_map.mpr ⟨rc', h', he.trans (hid.trans hc.symm)⟩))
    · rw [List.find?_cons_of_neg _ (by simp [hc])]
      rw [show resolveStep now vh c rc = c from
        by unfold resolveStep; rw [if_neg (fun he => hc (he.symm.trans hid))]]
      exact ih hnd

/-- C2: an agent plan update is rejected outside `changes_requested`; with
fresh content it appends the new version, resolves every previously unresolved
comment with `resolvedInVersion = newDigest` and the default resolution
message unless a caller-supplied `resolvedComments` entry overrides that
comment's resolution text, and moves the status to `updated`. -/
theorem C2_agent_update (hash : String → String) (now : Nat) (r : Review)
    (newContent : String) (d : Option String) (rcs : List ResolvedCommentInput)
    (hst : r.status = .changes_requested)
    (hh : hash newContent ≠ r.currentVersion)
    (hcid : (r.comments.map (·.id)).Nodup)
    (hrc : (rcs.map (·.commentId)).Nodup) :
    (∀ (hash' : String → String) (now' : Nat) (r0 : Review) (c0 : String) (o : UpdatePlanOptions),
       o.author = some .agent → r0.status ≠ .changes_requested →
       updatePlanContent hash' now' r0 c0 o = .error "Agent cannot update plan from this status") ∧
    ∃ r', updatePlanContent hash now r newContent
        { changeDescription := d, author := some .agent, resolvedComments := some rcs } = .ok r' ∧
      r'.status = .updated ∧
      r'.currentVersion = hash newContent ∧
      r'.planContent = newContent ∧
      r'.documentVersions = r.documentVersions ++
        [{ versionHash := hash newContent, content := newContent, createdAt := now
           changeDescription := d, author := some .agent
           previousVersion := some r.currentVersion }] ∧
      List.Forall₂
        (fun c c' =>
          c'.id = c.id ∧
          (c.resolved = false →
            c'.resolved = true ∧
            c'.resolvedInVersion = some (hash newContent) ∧
            c'.resolution = some
              (match rcs.find? (fun rc => rc.commentId = c.id) with
               | some rc => rc.resolution
               | none => defaultResolution)))
        r.comments r'.comments := by
  refine ⟨fun hash' now' r0 c0 o ha hs => updatePlanContent_agent_error ha hs, ?_⟩
  have hok : updatePlanContent hash now r newContent
      { changeDescription := d, author := some .agent, resolvedComments := some rcs } =
      .ok { r with
        documentVersions := r.documentVersions ++
          [newVersionOf hash now r newContent
            { changeDescription := d, author := some .agent, resolvedComments := some rcs }]
        currentVersion := hash newContent
        planContent := newContent
        comments := updatedComments now (hash newContent)
          { changeDescription := d, author := some .agent, resolvedComments := some rcs }
          r.comments
        status := .updated } := by
    unfold updatePlanContent
    rw [if_neg (by simp [hst]), if_neg hh, if_pos ⟨rfl, hst⟩]
  refine ⟨_, hok, rfl, rfl, rfl, rfl, ?_⟩
  have hcms : updatedComments now (hash newContent)
      { changeDescription := d, author := some .agent, resolvedComments := some rcs }
      r.comments =
      r.comments.map
        (fun c => rcs.foldl (resolveStep now (hash newContent))
          (autoResolve now (hash newContent) c)) := by
    unfold updatedComments
    dsimp only
    rw [if_pos (Or.inl rfl)]
    rw [foldl_applyResolved_eq_map now (hash newContent) rcs _
      (by rw [map_autoResolve_ids]; exact hcid)]
    rw [List.map_map]
    rfl
  show List.Forall₂ _ r.comments (updatedComments now (hash newContent)
    { changeDescription := d, author := some .agent, resolvedComments := some rcs }
    r.comments)
  rw [hcms, List.forall₂_map_right_iff]
  refine List.forall₂_same.mpr ?_
  intro c hc
  refine ⟨(foldl_resolveStep_id now (hash newContent) rcs _).trans
    (autoResolve_id now (hash newContent) c), ?_⟩
  intro hres
  have hauto : autoResolve now (hash newContent) c =
      resolveMark now (hash newContent) defaultResolution c := by
    unfold autoResolve
    rw [if_neg (by simp [hres])]
  rw [hauto]
  rw [foldl_resolveStep_find now (hash newContent) rcs
    (resolveMark now (hash newContent) defaultResolution c) c.id rfl hrc]
  cases hfind : rcs.find? (fun rc => rc.commentId = c.id) with
  | some rc => exact ⟨rfl, rfl, rfl⟩
  | none => exact ⟨rfl, rfl, rfl⟩

/-- C2 witness: the agent revision on the concrete `changes_requested` review
with one caller-supplied override. -/
theorem C2_agent_update_witness :
    ∃ r', updatePlanContent testHash 7 rCR "line ONE\nline two\nline three"
        { changeDescription := none, author := some .agent
          resolvedComments := some rcsOverride } = .ok r' ∧
      r'.status = .updated ∧
      r'.currentVersion = testHash "line ONE\nline two\nline three" ∧
      r'.planContent = "line ONE\nline two\nline three" ∧
      r'.documentVersions = rCR.documentVersions ++
        [{ versionHash := testHash "line ONE\nline two\nline three"
           content := "line ONE\nline two\nline three", createdAt := 7
           changeDescription := none, author := some .agent
           previousVersion := some rCR.currentVersion }] ∧
      List.Forall₂
        (fun c c' =>
          c'.id = c.id ∧
          (c.resolved = false →
            c'.resolved = true ∧
            c'.resolvedInVersion = some (testHash "line ONE\nline two\nline three") ∧
            c'.resolution = some
              (match rcsOverride.find? (fun rc => rc.commentId = c.id) with
               | some rc => rc.resolution
               | none => defaultResolution)))
        rCR.comments r'.comments :=
  (C2_agent_update testHash 7 rCR "line ONE\nline two\nline three" none rcsOverride
    (by decide) (by decide) (by decide) (by decide)).2

/-- C8 witness: the event emitted for the concrete agent revision on `rCR`
resolves exactly the previously unresolved comment `c1`. -/
theorem C8_version_event_witness :
    ("c1" ∈ putPlanEvFixture.resolvedComments.map Prod.fst) ∧
    ("c0" ∉ putPlanEvFixture.resolvedComments.map Prod.fst) := by
  have h := C8_version_event testHash 7 rCR "line ONE\nline two\nline three" none
    (some .agent) none putPlanResFixture putPlanEvFixture putPlanSeFixture (by decide)
  constructor
  · exact (h.2.1 "c1").mpr (by decide)
  · intro hmem
    have := (h.2.1 "c0").mp hmem
    exact absurd this (by decide)

end PlanReview
